import Mathlib

/-!
Verification of the quiz-application backend (a single Flask file, `app/app.py`)
against its specification.  The Python handlers manipulate dynamically typed
JSON values, so the development first builds a model `JVal` of such values
together with Python's truthiness, `dict.get`, `or`-defaulting, comparison and
`max` semantics, and then translates each handler
(`save_results`, `load_questions_map`, `iter_results`, `admin_users`,
`admin_summary`) into an executable Lean function over `JVal`.

Modelling decisions, recorded once here:
* JSON numbers are modelled as `Int`; no claim involves fractional values
  (the `accuracy` field is only carried through, never computed with).
* Lists and dicts are encoded with dedicated cons constructors (`acons`,
  `ocons`) rather than nested `List`s so that equality is derivable and all
  functions are structurally recursive (hence kernel-computable).
* Where the Python code would raise a `TypeError` (for example comparing a
  string with a number, or adding a dict to an int) the model totalises the
  operation; every such spot is marked in the corresponding definition.
  No claim depends on these unreachable-by-the-frontend corners, except for
  `POST /api/results` on non-dict payloads, where the raise itself is the
  observable behaviour and is modelled explicitly (`Except`).
* `json.loads` / `json.dumps` are library functions, not code of this
  repository; they are taken as parameters (`parse`, `dumps`) of the
  functions that use them.
-/

/-- Model of a Python/JSON value as stored in `results.ndjson` and
`questions.json`.  `anil`/`acons` build lists, `onil`/`ocons` build dicts
(which in Python 3.7+ preserve insertion order, as does this encoding). -/
inductive JVal where
  | null
  | bool (b : Bool)
  | num (n : Int)
  | str (s : String)
  | anil
  | acons (v : JVal) (rest : JVal)
  | onil
  | ocons (k : String) (v : JVal) (rest : JVal)
deriving DecidableEq, Repr

/-- Build a `JVal` list from a Lean list. -/
def JVal.mkArr : List JVal → JVal
  | [] => .anil
  | v :: vs => .acons v (mkArr vs)

/-- Build a `JVal` dict from a Lean list of key/value pairs. -/
def JVal.mkObj : List (String × JVal) → JVal
  | [] => .onil
  | (k, v) :: fs => .ocons k v (mkObj fs)

/-- Python truthiness: `None`, `False`, `0`, `""`, `[]` and the empty dict are
falsy, everything else is truthy. -/
def JVal.truthy : JVal → Bool
  | .null => false
  | .bool b => b
  | .num n => n != 0
  | .str s => s != ""
  | .anil => false
  | .acons _ _ => true
  | .onil => false
  | .ocons _ _ _ => true

/-- Python `a or b`: the left operand if it is truthy, otherwise the right. -/
def jor (a b : JVal) : JVal := if a.truthy then a else b

/-- Python `d.get(k)` restricted to dicts: `none` when the key is absent.
On non-dict values Python would raise `AttributeError`; the model returns
`none` there (no claim reaches that corner with a non-dict). -/
def JVal.get? : JVal → String → Option JVal
  | .ocons k v rest, key => if k = key then some v else rest.get? key
  | _, _ => none

/-- Python `d.get(k)` (default `None`). -/
def getJ (r : JVal) (k : String) : JVal := (r.get? k).getD .null

/-- Python `d.get(k, default)`. -/
def getD (r : JVal) (k : String) (d : JVal) : JVal := (r.get? k).getD d

/-- Is this value a Python list (`isinstance(x, list)`)? -/
def JVal.isList : JVal → Bool
  | .anil => true
  | .acons _ _ => true
  | _ => false

/-- Is this value a Python dict? -/
def JVal.isObj : JVal → Bool
  | .onil => true
  | .ocons _ _ _ => true
  | _ => false

/-- View a `JVal` list as a Lean list; non-lists become `[]` (Python would
raise when iterating a non-iterable, or iterate keys/characters for
dicts/strings; no claim depends on that corner). -/
def JVal.asList : JVal → List JVal
  | .acons v rest => v :: rest.asList
  | _ => []

/-- Python `int` coercion at the points where the handlers do arithmetic:
numbers are themselves, `True`/`False` count as `1`/`0` (bool is an int
subclass in Python); for other types Python would raise `TypeError`, which the
model totalises to `0`. -/
def jnum : JVal → Int
  | .num n => n
  | .bool b => if b then 1 else 0
  | _ => 0

/-- Python `dict[k] = v`: overwrite in place if the key exists, else append.
On a non-dict Python raises `TypeError`; callers guard with `isObj`. -/
def JVal.setKey : JVal → String → JVal → JVal
  | .ocons k v rest, key, nv =>
      if k = key then .ocons k nv rest else .ocons k v (rest.setKey key nv)
  | .onil, key, nv => .ocons key nv .onil
  | other, _, _ => other

/-! Section: string comparison

Python compares strings lexicographically by code point.  Lean's built-in
`String.lt` does not reduce in the kernel, so the comparison is defined
directly on character lists. -/

/-- Lexicographic `≤` on character lists (Python string comparison). -/
def lexLeB : List Char → List Char → Bool
  | [], _ => true
  | _ :: _, [] => false
  | a :: as, b :: bs => a < b || (a = b && lexLeB as bs)

theorem lexLeB_total : ∀ a b : List Char, lexLeB a b = true ∨ lexLeB b a = true := by
  intro a
  induction a with
  | nil => intro b; exact Or.inl rfl
  | cons x xs ih =>
    intro b
    cases b with
    | nil => exact Or.inr rfl
    | cons y ys =>
      simp only [lexLeB, Bool.or_eq_true, Bool.and_eq_true, decide_eq_true_eq]
      rcases lt_trichotomy x y with h | h | h
      · exact Or.inl (Or.inl h)
      · rcases ih ys with h2 | h2
        · exact Or.inl (Or.inr ⟨h, h2⟩)
        · exact Or.inr (Or.inr ⟨h.symm, h2⟩)
      · exact Or.inr (Or.inl h)

theorem lexLeB_trans : ∀ {a b c : List Char},
    lexLeB a b = true → lexLeB b c = true → lexLeB a c = true := by
  intro a
  induction a with
  | nil => intro b c _ _; rfl
  | cons x xs ih =>
    intro b c h1 h2
    cases b with
    | nil => simp [lexLeB] at h1
    | cons y ys =>
      cases c with
      | nil => simp [lexLeB] at h2
      | cons z zs =>
        simp only [lexLeB, Bool.or_eq_true, Bool.and_eq_true, decide_eq_true_eq] at h1 h2 ⊢
        rcases h1 with h1 | ⟨rfl, h1⟩
        · rcases h2 with h2 | ⟨rfl, h2⟩
          · exact Or.inl (lt_trans h1 h2)
          · exact Or.inl h1
        · rcases h2 with h2 | ⟨rfl, h2⟩
          · exact Or.inl h2
          · exact Or.inr ⟨rfl, ih h1 h2⟩

/-- Python `s.lower()` (ASCII case folding suffices for this code base). -/
def lowerStr (s : String) : String := String.mk (s.data.map Char.toLower)

/-- Does `pat` start `l`? (helper for substring search). -/
def leadMatch : List Char → List Char → Bool
  | [], _ => true
  | _ :: _, [] => false
  | a :: as, b :: bs => a = b && leadMatch as bs

/-- Python `needle in hay` on strings: contiguous substring test. -/
def hasSub : List Char → List Char → Bool
  | pat, [] => leadMatch pat []
  | pat, c :: rest => leadMatch pat (c :: rest) || hasSub pat rest

/-! Section: a total order on `JVal`

Python comparison (`<`, `max`, `sorted`) is only defined between values of the
same type and raises `TypeError` otherwise.  The handlers only ever compare
timestamps, which are ISO-8601 strings (or the `""` fallback), so the model
extends the same-type orders by an arbitrary rank between types to obtain a
total preorder; on strings it is exactly Python's lexicographic order. -/

def jrank : JVal → Nat
  | .null => 0
  | .bool _ => 1
  | .num _ => 2
  | .str _ => 3
  | .anil => 4
  | .acons _ _ => 4
  | .onil => 5
  | .ocons _ _ _ => 5

def jnumKey : JVal → Int
  | .bool b => if b then 1 else 0
  | .num n => n
  | _ => 0

def jstrKey : JVal → List Char
  | .str s => s.data
  | _ => []

/-- The total preorder on `JVal` used to model Python comparison of sort
keys.  On two strings it is Python's lexicographic `≤`; on two numbers or two
booleans the numeric order; values of different types (where Python would
raise) are ordered by rank, and all lists (resp. dicts) are equivalent. -/
def jleB (a b : JVal) : Bool :=
  decide (jrank a < jrank b) ||
    (jrank a == jrank b &&
      (decide (jnumKey a < jnumKey b) ||
        (jnumKey a == jnumKey b && lexLeB (jstrKey a) (jstrKey b))))

theorem jleB_total (a b : JVal) : jleB a b = true ∨ jleB b a = true := by
  unfold jleB
  simp only [Bool.or_eq_true, Bool.and_eq_true, decide_eq_true_eq, beq_iff_eq]
  rcases lt_trichotomy (jrank a) (jrank b) with h | h | h
  · exact Or.inl (Or.inl h)
  · rcases lt_trichotomy (jnumKey a) (jnumKey b) with h2 | h2 | h2
    · exact Or.inl (Or.inr ⟨h, Or.inl h2⟩)
    · rcases lexLeB_total (jstrKey a) (jstrKey b) with h3 | h3
      · exact Or.inl (Or.inr ⟨h, Or.inr ⟨h2, h3⟩⟩)
      · exact Or.inr (Or.inr ⟨h.symm, Or.inr ⟨h2.symm, h3⟩⟩)
    · exact Or.inr (Or.inr ⟨h.symm, Or.inl h2⟩)
  · exact Or.inr (Or.inl h)

theorem jleB_trans {a b c : JVal} (h1 : jleB a b = true) (h2 : jleB b c = true) :
    jleB a c = true := by
  unfold jleB at h1 h2 ⊢
  simp only [Bool.or_eq_true, Bool.and_eq_true, decide_eq_true_eq, beq_iff_eq] at h1 h2 ⊢
  rcases h1 with h1 | ⟨hr1, h1⟩
  · rcases h2 with h2 | ⟨hr2, _⟩
    · exact Or.inl (lt_trans h1 h2)
    · exact Or.inl (hr2 ▸ h1)
  · rcases h2 with h2 | ⟨hr2, h2⟩
    · exact Or.inl (hr1 ▸ h2)
    · refine Or.inr ⟨hr1.trans hr2, ?_⟩
      rcases h1 with h1 | ⟨hn1, h1⟩
      · rcases h2 with h2 | ⟨hn2, _⟩
        · exact Or.inl (lt_trans h1 h2)
        · exact Or.inl (hn2 ▸ h1)
      · rcases h2 with h2 | ⟨hn2, h2⟩
        · exact Or.inl (hn1 ▸ h2)
        · exact Or.inr ⟨hn1.trans hn2, lexLeB_trans h1 h2⟩

/-- Python `a < b` (values at `a > b` positions are written this way below). -/
def jltB (a b : JVal) : Bool := !(jleB b a)

/-- Python `max(a, b)`: `b` if `a < b`, else `a` (the first maximal value). -/
def jmax (a b : JVal) : JVal := if jltB a b then b else a

/-- Descending comparison by a `JVal`-valued sort key: `a` may come before `b`
iff `key b ≤ key a`.  `List.insertionSort` with this relation is a stable
descending sort, which is exactly Python's `sorted(..., key=key, reverse=True)`. -/
def descBy {α : Type} (key : α → JVal) (a b : α) : Prop := jleB (key b) (key a) = true

instance {α : Type} (key : α → JVal) : DecidableRel (descBy key) :=
  fun a b => inferInstanceAs (Decidable (jleB (key b) (key a) = true))

instance {α : Type} (key : α → JVal) : IsTotal α (descBy key) :=
  ⟨fun a b => jleB_total (key b) (key a)⟩

instance {α : Type} (key : α → JVal) : IsTrans α (descBy key) :=
  ⟨fun _ _ _ h1 h2 => jleB_trans h2 h1⟩

/-! Section: the dict-accumulator pattern

`d = table.setdefault(key, init); mutate d` — update the (unique) entry whose
key matches, inserting a fresh one at the end if none does.  Insertion order is
preserved, matching `dict.values()`. -/

def upsert {α : Type} (p : α → Bool) (f : α → α) (init : α) : List α → List α
  | [] => [f init]
  | x :: xs => if p x then f x :: xs else x :: upsert p f init xs

theorem find?_upsert_self {α : Type} (p : α → Bool) (f : α → α) (init : α)
    (hinit : p init = true) (hf : ∀ x, p (f x) = p x) :
    ∀ m : List α, List.find? p (upsert p f init m) = some (f ((List.find? p m).getD init)) := by
  intro m
  induction m with
  | nil => simp [upsert, List.find?_cons, hf, hinit]
  | cons x xs ih =>
    cases hx : p x with
    | true => simp [upsert, hx, List.find?_cons, hf]
    | false => simp [upsert, hx, List.find?_cons, hf, ih]

theorem find?_upsert_ne {α : Type} (p q : α → Bool) (f : α → α) (init : α)
    (hpq : ∀ x, q x = true → p x = false) (hf : ∀ x, p (f x) = p x)
    (hinit : p init = false) :
    ∀ m : List α, List.find? p (upsert q f init m) = List.find? p m := by
  intro m
  induction m with
  | nil => simp [upsert, List.find?_cons, hf, hinit]
  | cons x xs ih =>
    by_cases hx : q x = true
    · simp [upsert, hx, List.find?_cons, hf, hpq x hx]
    · simp only [upsert, hx, if_false, Bool.not_eq_true] at *
      cases hpx : p x with
      | true => simp [List.find?_cons, hpx]
      | false => simp [List.find?_cons, hpx, ih]

theorem mem_upsert {α : Type} (p : α → Bool) (f : α → α) (init : α) :
    ∀ m : List α, ∀ x ∈ upsert p f init m, (∃ y ∈ m, x = f y ∨ x = y) ∨ x = f init := by
  intro m
  induction m with
  | nil => intro x hx; simp [upsert] at hx; exact Or.inr hx
  | cons y ys ih =>
    intro x hx
    cases hy : p y with
    | true =>
      rw [upsert, hy, if_pos rfl] at hx
      rcases List.mem_cons.mp hx with rfl | hx
      · exact Or.inl ⟨y, List.mem_cons_self y ys, Or.inl rfl⟩
      · exact Or.inl ⟨x, List.mem_cons_of_mem y hx, Or.inr rfl⟩
    | false =>
      rw [upsert, hy] at hx
      simp only [Bool.false_eq_true, if_false] at hx
      rcases List.mem_cons.mp hx with rfl | hx
      · exact Or.inl ⟨x, List.mem_cons_self x ys, Or.inr rfl⟩
      · rcases ih x hx with ⟨z, hz, hxz⟩ | hxi
        · exact Or.inl ⟨z, List.mem_cons_of_mem y hz, hxz⟩
        · exact Or.inr hxi

/-! Section: Session Log Reader — `iter_results` (app.py lines 71–89)

Reads `data/results.ndjson`.  The file is modelled as `Option (List String)`
(`none` = missing file) and `json.loads` as a `parse` parameter returning
`none` exactly on the lines it would reject. -/

/-- Python `line.strip()`: remove leading and trailing whitespace. -/
def pyStrip (s : String) : String :=
  String.mk (((s.data.dropWhile Char.isWhitespace).reverse.dropWhile Char.isWhitespace).reverse)

/-- The loop body of `iter_results`: strip each line, skip blank lines,
append the parse result, skip lines `json.loads` rejects. -/
def iterLoop (parse : String → Option JVal) : List String → List JVal → List JVal
  | [], out => out
  | line :: rest, out =>
      let s := pyStrip line
      if s = "" then iterLoop parse rest out
      else
        match parse s with
        | some v => iterLoop parse rest (out ++ [v])
        | none => iterLoop parse rest out

/-- Model of `iter_results()`: the parsed session records of `results.ndjson`, in file
order; `[]` when the file does not exist. -/
def iter_results (parse : String → Option JVal) : Option (List String) → List JVal
  | none => []
  | some lines => iterLoop parse lines []

/-- What one log line contributes: `none` if blank after stripping or
unparseable, otherwise its parsed record. -/
def lineParse (parse : String → Option JVal) (line : String) : Option JVal :=
  let s := pyStrip line
  if s = "" then none else parse s

/-! Section: Session Log Writer — `save_results` (app.py lines 24–36)

`POST /api/results`.  The request body is `Option JVal` (`none` when
`request.get_json(force=True, silent=True)` returns `None`), the current UTC
timestamp is the `now` parameter, the log file is a list of lines, and
`json.dumps` is the `dumps` parameter.  `rec["receivedAt"] = ...` raises
`TypeError` when `rec` is not a dict, which Flask turns into a 500 response
with nothing written; that path is the `Except.error` case. -/

structure HttpReply where
  status : Nat
  body : JVal
deriving DecidableEq, Repr

/-- The record actually stored: the parsed body if truthy, else the empty
dict (`request.get_json(...) or` empty dict). -/
def effRec (body : Option JVal) : JVal := jor (body.getD .null) (JVal.mkObj [])

/-- Model of `save_results()`: stamp `receivedAt`, append one line, reply 201. -/
def save_results (dumps : JVal → String) (body : Option JVal) (now : String)
    (log : List String) : Except Unit (HttpReply × List String) :=
  let rec0 := effRec body
  if rec0.isObj then
    .ok ({ status := 201, body := JVal.mkObj [("ok", .bool true)] },
         log ++ [dumps (rec0.setKey "receivedAt" (.str now))])
  else
    .error ()

/-! Section: Question Catalog Loader — `load_questions_map` (app.py lines 40–68)

The catalog document is `Option JVal`: `none` when `questions.json` is
missing or `json.load` fails (both return the empty map).  The resulting
Python dict keyed by question id is modelled as an insertion-ordered
association list with unique keys. -/

def alookup : List (JVal × JVal) → JVal → Option JVal
  | [], _ => none
  | (k, v) :: rest, key => if k = key then some v else alookup rest key

def aset : List (JVal × JVal) → JVal → JVal → List (JVal × JVal)
  | [], key, nv => [(key, nv)]
  | (k, v) :: rest, key, nv =>
      if k = key then (k, nv) :: rest else (k, v) :: aset rest key nv

/-- The record stored per catalog entry: id, jp, en, unit plus the fixed
type tag ("reorder" for the questions array, "vocab" for the vocab array). -/
def qEntry (tp : String) (q : JVal) : JVal :=
  JVal.mkObj [("id", getJ q "id"), ("jp", getJ q "jp"), ("en", getJ q "en"),
    ("unit", getJ q "unit"), ("type", .str tp)]

/-- One array's loop: entries whose id is truthy are written into the map
(overwriting an existing entry with the same id), the rest are skipped. -/
def addEntries (tp : String) : List (JVal × JVal) → List JVal → List (JVal × JVal)
  | m, [] => m
  | m, q :: qs =>
      let qid := getJ q "id"
      addEntries tp (if qid.truthy then aset m qid (qEntry tp q) else m) qs

/-- The `questions` top-level array as read by the handler:
`data.get("questions", []) or []`, iterated as a list. -/
def docQuestions (data : JVal) : List JVal :=
  (jor (getD data "questions" .anil) .anil).asList

/-- The `vocab` top-level array, read the same way. -/
def docVocab (data : JVal) : List JVal :=
  (jor (getD data "vocab" .anil) .anil).asList

/-- Model of `load_questions_map()`: first the `questions` array, then the `vocab`
array, later writes winning. -/
def load_questions_map (doc : Option JVal) : List (JVal × JVal) :=
  match doc with
  | none => []
  | some data => addEntries "vocab" (addEntries "reorder" [] (docQuestions data)) (docVocab data)

/-! Section: endpoint `GET /api/admin/users` — `admin_users` (app.py lines 93–113) -/

/-- One row of the per-user summary (the dict built at app.py line 103). -/
structure URec where
  user : JVal
  sessions : Nat
  lastAt : JVal
  answered : Int
  correct : Int
deriving DecidableEq, Repr

/-- Python `r.get("user") or "guest"` — the key a session is accumulated under. -/
def userKey (r : JVal) : JVal := jor (getJ r "user") (.str "guest")

/-- Python `r.get("endedAt") or r.get("receivedAt") or ""`. -/
def lastOf (r : JVal) : JVal := jor (getJ r "endedAt") (jor (getJ r "receivedAt") (.str ""))

/-- Python `r.get("answered") or []`. -/
def ansOf (r : JVal) : JVal := jor (getJ r "answered") .anil

/-- Python `sum(1 for a in ans if a.get("correct"))`. -/
def flagCount (ans : JVal) : Nat :=
  ans.asList.countP (fun a => (getJ a "correct").truthy)

/-- The amount added to a user's `answered` counter by one session:
the length of the answer list when `r.get("answered") or []` is a list
(which it always is when the field is absent, since the fallback is `[]`),
else `r.get("total") or 0`. -/
def ansContrib (r : JVal) : Int :=
  let ans := ansOf r
  if ans.isList then (ans.asList.length : Int) else jnum (jor (getJ r "total") (.num 0))

/-- The amount added to a user's `correct` counter by one session:
`r.get("correct") or sum(1 for a in ans if a.get("correct"))`. -/
def corContrib (r : JVal) : Int :=
  jnum (jor (getJ r "correct") (.num (flagCount (ansOf r))))

/-- The per-session update of a user's row (app.py lines 104–111). -/
def bumpUser (r : JVal) (d : URec) : URec :=
  { d with
    sessions := d.sessions + 1
    lastAt := jmax (jor d.lastAt (.str "")) (lastOf r)
    answered := d.answered + ansContrib r
    correct := d.correct + corContrib r }

/-- The fresh row inserted by `users.setdefault` (app.py line 103). -/
def initUser (u : JVal) : URec :=
  { user := u, sessions := 0, lastAt := .null, answered := 0, correct := 0 }

def stepUser (m : List URec) (r : JVal) : List URec :=
  upsert (fun d => d.user == userKey r) (bumpUser r) (initUser (userKey r)) m

/-- Model of `users.values()` after the fold over all sessions, in insertion order. -/
def usersTable (res : List JVal) : List URec := res.foldl stepUser []

/-- The sort key of the final listing: `x["lastAt"] or ""`. -/
def lastKey (d : URec) : JVal := jor d.lastAt (.str "")

/-- Endpoint `GET /api/admin/users`: the user rows sorted by `lastAt` descending. -/
def admin_users (res : List JVal) : List URec :=
  List.insertionSort (descBy lastKey) (usersTable res)

/-! Section: endpoint `GET /api/admin/summary` — `admin_summary` (app.py lines 116–214)

Query parameters are `Option String` (`none` = absent).  The handler reads
the catalog (`load_questions_map`) and the log fresh on every request; here
the already-parsed log `res : List JVal` is passed in (it is
`iter_results parse file` for the file on disk). -/

/-- Model of `match_user` (app.py lines 129–130): absent, empty or `"__all__"` match
every session, otherwise `r.get("user", "guest") == user`. -/
def matchUser (user : Option String) (r : JVal) : Bool :=
  match user with
  | none => true
  | some s => s == "" || s == "__all__" || getD r "user" (.str "guest") == JVal.str s

/-- One row of the `sessions` list (app.py lines 138–148). -/
structure SessRow where
  user : JVal
  endedAt : JVal
  total : JVal
  correct : JVal
  accuracy : JVal
  mode : JVal
  qType : JVal
  setIndex : JVal
  seconds : JVal
deriving DecidableEq, Repr

/-- The answer list a session is iterated over: `r.get("answered") or []`. -/
def answersOf (r : JVal) : List JVal := (ansOf r).asList

def mkSessRow (r : JVal) : SessRow :=
  let ansL := answersOf r
  { user := getD r "user" (.str "guest")
    endedAt := getJ r "endedAt"
    total := getD r "total" (.num ansL.length)
    correct := getD r "correct" (.num (ansL.countP (fun a => (getJ a "correct").truthy)))
    accuracy := getJ r "accuracy"
    mode := jor (getJ r "mode") (.str "normal")
    qType := getJ r "qType"
    setIndex := getJ r "setIndex"
    seconds := getD r "seconds" (.num 0) }

/-- One flattened answer item (app.py lines 151–162).  The Python dict key
`at` is the field `atVal` here (`at` is reserved in Lean). -/
structure AItem where
  user : JVal
  id : JVal
  unit : JVal
  jp : JVal
  en : JVal
  type : JVal
  correct : Bool
  userAnswer : JVal
  atVal : JVal
deriving DecidableEq, Repr

def mkItem (qmap : List (JVal × JVal)) (r a : JVal) : AItem :=
  let qm := (alookup qmap (getJ a "id")).getD (JVal.mkObj [])
  { user := getD r "user" (.str "guest")
    id := getJ a "id"
    unit := jor (getJ a "unit") (jor (getJ qm "unit") (.str ""))
    jp := getJ qm "jp"
    en := getJ qm "en"
    type := jor (getJ a "type") (jor (getJ qm "type") (.str ""))
    correct := (getJ a "correct").truthy
    userAnswer := getJ a "userAnswer"
    atVal := jor (getJ a "at") (jor (getJ r "endedAt") (getJ r "receivedAt")) }

/-- Python `str(x or "")` for the four haystack fields: strings print as
themselves, numbers and booleans as Python would print them.  Lists and dicts
would print as their repr; no claim touches that, so they map to `""`. -/
def pyStr : JVal → String
  | .str s => s
  | .num n => toString n
  | .bool b => if b then "True" else "False"
  | .null => "None"
  | _ => ""

/-- The lower-cased haystack of the free-text filter (app.py line 168). -/
def hayOf (it : AItem) : String :=
  lowerStr (String.intercalate " "
    [pyStr (jor it.id (.str "")), pyStr (jor it.jp (.str "")),
     pyStr (jor it.en (.str "")), pyStr (jor it.userAnswer (.str ""))])

/-- The two `continue` guards (app.py lines 163–170): an item is kept iff the
unit filter is off or matches exactly, and the free-text filter is off or the
needle occurs in the haystack. -/
def keepItem (unitQ qtext : String) (it : AItem) : Bool :=
  (unitQ == "" || it.unit == JVal.str unitQ) &&
    (qtext == "" || hasSub qtext.data (hayOf it).data)

/-- The session summary rows: every session matching the user selector, in
log order (appended before any answer filtering). -/
def sessRows (user : Option String) (res : List JVal) : List SessRow :=
  (res.filter (matchUser user)).map mkSessRow

/-- Model of `answered_all`: the flattened, filtered answer list, in log order. -/
def answeredAll (qmap : List (JVal × JVal)) (user : Option String)
    (unitQ qtext : String) (res : List JVal) : List AItem :=
  (res.filter (matchUser user)).flatMap
    (fun r => ((answersOf r).map (mkItem qmap r)).filter (keepItem unitQ qtext))

structure Totals where
  sessions : Nat
  answered : Nat
  correct : Nat
deriving DecidableEq, Repr

/-- One row of the per-unit table (app.py lines 180–188). -/
structure UnitRow where
  unit : JVal
  answered : Nat
  correct : Nat
  wrong : Nat
deriving DecidableEq, Repr

/-- Python `a.get("unit") or ""` — the grouping key of the per-unit table. -/
def unitKeyOf (it : AItem) : JVal := jor it.unit (.str "")

def bumpUnit (it : AItem) (d : UnitRow) : UnitRow :=
  { d with
    answered := d.answered + 1
    correct := d.correct + (if it.correct then 1 else 0)
    wrong := d.wrong + (if it.correct then 0 else 1) }

def byUnitTable (items : List AItem) : List UnitRow :=
  items.foldl
    (fun m it => upsert (fun d => d.unit == unitKeyOf it) (bumpUnit it)
      { unit := unitKeyOf it, answered := 0, correct := 0, wrong := 0 } m) []

/-- The per-unit sort (app.py line 189): ascending by the pair of negated
answered count and unit label, i.e. answered descending with ties by unit. -/
def unitOrd (a b : UnitRow) : Prop :=
  b.answered < a.answered ∨ (a.answered = b.answered ∧ jleB a.unit b.unit = true)

instance : DecidableRel unitOrd :=
  fun _ _ => inferInstanceAs (Decidable (_ ∨ _))

instance : IsTotal UnitRow unitOrd := by
  constructor
  intro a b
  unfold unitOrd
  rcases Nat.lt_trichotomy a.answered b.answered with h | h | h
  · exact Or.inr (Or.inl h)
  · rcases jleB_total a.unit b.unit with h2 | h2
    · exact Or.inl (Or.inr ⟨h, h2⟩)
    · exact Or.inr (Or.inr ⟨h.symm, h2⟩)
  · exact Or.inl (Or.inl h)

instance : IsTrans UnitRow unitOrd := by
  constructor
  intro a b c h1 h2
  unfold unitOrd at h1 h2 ⊢
  rcases h1 with h1 | ⟨he1, h1⟩
  · rcases h2 with h2 | ⟨he2, _⟩
    · exact Or.inl (lt_trans h2 h1)
    · exact Or.inl (he2 ▸ h1)
  · rcases h2 with h2 | ⟨he2, h2⟩
    · exact Or.inl (he1 ▸ h2)
    · exact Or.inr ⟨he1.trans he2, jleB_trans h1 h2⟩

/-- One row of the most-missed table (app.py lines 192–202). -/
structure QRow where
  id : JVal
  unit : JVal
  jp : JVal
  en : JVal
  answered : Nat
  wrong : Nat
  lastAt : JVal
deriving DecidableEq, Repr

/-- Python `a.get("id") or "(no-id)"` — the grouping key of the most-missed table. -/
def qKeyOf (it : AItem) : JVal := jor it.id (.str "(no-id)")

def initQ (it : AItem) : QRow :=
  { id := qKeyOf it, unit := it.unit, jp := it.jp, en := it.en,
    answered := 0, wrong := 0, lastAt := .null }

def bumpQ (it : AItem) (d : QRow) : QRow :=
  { d with
    answered := d.answered + 1
    wrong := d.wrong + (if it.correct then 0 else 1)
    lastAt := jmax (jor d.lastAt (.str "")) (jor it.atVal (.str "")) }

def byQTable (items : List AItem) : List QRow :=
  items.foldl
    (fun m it => upsert (fun d => d.id == qKeyOf it) (bumpQ it) (initQ it) m) []

/-- The most-missed order (app.py line 203): `a` may precede `b` iff the key
pair (wrong, answered) of `b` is lexicographically at most that of `a` —
wrong count descending, ties by answered count descending. -/
def missedOrd (a b : QRow) : Prop :=
  b.wrong < a.wrong ∨ (b.wrong = a.wrong ∧ b.answered ≤ a.answered)

instance : DecidableRel missedOrd :=
  fun _ _ => inferInstanceAs (Decidable (_ ∨ _))

instance : IsTotal QRow missedOrd := by
  constructor
  intro a b
  unfold missedOrd
  omega

instance : IsTrans QRow missedOrd := by
  constructor
  intro a b c h1 h2
  unfold missedOrd at h1 h2 ⊢
  omega

/-- The most-missed table, sorted. -/
def topMissedArr (items : List AItem) : List QRow :=
  List.insertionSort missedOrd (byQTable items)

/-- The per-answer sort key of `recentAnswers`: `x.get("at") or ""`. -/
def atKey (it : AItem) : JVal := jor it.atVal (.str "")

/-- Field `recentAnswers` (app.py line 206): sorted by timestamp descending,
truncated to 100. -/
def recentArr (items : List AItem) : List AItem :=
  (List.insertionSort (descBy atKey) items).take 100

/-- The session sort key: `x["endedAt"] or ""`. -/
def endKey (srow : SessRow) : JVal := jor srow.endedAt (.str "")

/-- The `sessions` list of the response (app.py line 213): sorted by end
timestamp descending, truncated to 100. -/
def sessArr (rows : List SessRow) : List SessRow :=
  (List.insertionSort (descBy endKey) rows).take 100

/-- The response of `GET /api/admin/summary`. -/
structure Summary where
  totals : Totals
  byUnit : List UnitRow
  topMissed : List QRow
  recentAnswers : List AItem
  sessions : List SessRow
deriving DecidableEq, Repr

/-- Model of `admin_summary()`: parameter normalisation (`unit or ""`,
`(q or "").lower()`), catalog load, the two accumulation passes and the
derived tables. -/
def admin_summary (doc : Option JVal) (userQ unitQ0 qQ0 : Option String)
    (res : List JVal) : Summary :=
  let unitQ := unitQ0.getD ""
  let qtext := lowerStr (qQ0.getD "")
  let qmap := load_questions_map doc
  let items := answeredAll qmap userQ unitQ qtext res
  let rows := sessRows userQ res
  { totals :=
      { sessions := rows.length
        answered := items.length
        correct := items.countP (fun it => it.correct) }
    byUnit := List.insertionSort unitOrd (byUnitTable items)
    topMissed := topMissedArr items
    recentAnswers := recentArr items
    sessions := sessArr rows }

/-! Theorems for claims C5 (log reader), C6 (log writer) and C7 (catalog loader). -/

theorem iterLoop_eq (parse : String → Option JVal) :
    ∀ lines out, iterLoop parse lines out = out ++ lines.filterMap (lineParse parse) := by
  intro lines
  induction lines with
  | nil => intro out; simp [iterLoop]
  | cons l rest ih =>
    intro out
    simp only [iterLoop, lineParse, List.filterMap_cons]
    by_cases h : pyStrip l = ""
    · simp [h, ih]
    · cases hp : parse (pyStrip l) with
      | none => simp [h, hp, ih]
      | some v => simp [h, hp, ih]

theorem length_filterMap_eq_countP {α β : Type} (f : α → Option β) :
    ∀ l : List α, (l.filterMap f).length = l.countP (fun a => (f a).isSome) := by
  intro l
  induction l with
  | nil => rfl
  | cons a l ih =>
    cases h : f a with
    | none => simp [List.filterMap_cons, h, List.countP_cons, ih]
    | some b => simp [List.filterMap_cons, h, List.countP_cons, ih]

/-- C5: the session log reader returns exactly the parsed records of the
parseable lines in file order — blank or unparseable lines contribute
nothing and abort nothing (so ten lines of which one is corrupt yield the
nine parsed records, the count being the number of parseable lines) — and a
missing log file yields the empty sequence rather than an error. -/
theorem C5_iter_results_skip_bad_lines (parse : String → Option JVal) :
    iter_results parse none = [] ∧
    (∀ lines, iter_results parse (some lines) = lines.filterMap (lineParse parse)) ∧
    (∀ lines, (iter_results parse (some lines)).length =
      lines.countP (fun l => (lineParse parse l).isSome)) := by
  refine ⟨rfl, fun lines => ?_, fun lines => ?_⟩
  · rw [iter_results, iterLoop_eq, List.nil_append]
  · rw [iter_results, iterLoop_eq, List.nil_append, length_filterMap_eq_countP]

/-- A concrete serializer used to instantiate `save_results` in closed
statements (the behaviour shown is independent of the serializer). -/
def dumpsStub : JVal → String := fun _ => ""

/-- C6 counterexample: a payload that parses to a truthy non-dict (here the
list `[1]`) makes `rec["receivedAt"] = ...` raise `TypeError`; the request
fails with a 500 instead of returning 201, and no line is appended. -/
theorem C6_counterexample_non_dict_payload :
    save_results dumpsStub (some (JVal.mkArr [JVal.num 1]))
      "2025-01-01T00:00:00Z" ["prior line"] = .error () := rfl

/-- C6 (amended): for every payload whose effective record is a dict — i.e.
the parsed body is a JSON object, or parsing failed / the body was falsy so
the empty dict is used — `POST /api/results` replies 201 with ok=true and
the new log is exactly the old log with one line appended, so every
previously existing line is unchanged and in its original order. -/
theorem C6_amended_append_only (dumps : JVal → String) (body : Option JVal)
    (now : String) (log : List String) (h : (effRec body).isObj = true) :
    save_results dumps body now log =
      .ok ({ status := 201, body := JVal.mkObj [("ok", .bool true)] },
           log ++ [dumps ((effRec body).setKey "receivedAt" (.str now))]) := by
  simp [save_results, h]

theorem C6_amended_append_only_witness :
    (effRec (some (JVal.mkObj [("user", JVal.str "ken"), ("total", JVal.num 3)]))).isObj = true ∧
    save_results dumpsStub (some (JVal.mkObj [("user", JVal.str "ken"), ("total", JVal.num 3)]))
        "2025-01-01T00:00:00Z" ["old line"] =
      .ok ({ status := 201, body := JVal.mkObj [("ok", .bool true)] },
           ["old line"] ++
             [dumpsStub ((effRec (some (JVal.mkObj [("user", JVal.str "ken"), ("total", JVal.num 3)]))).setKey
               "receivedAt" (.str "2025-01-01T00:00:00Z"))]) :=
  ⟨by decide, C6_amended_append_only dumpsStub _ _ _ (by decide)⟩

theorem alookup_aset_self : ∀ (m : List (JVal × JVal)) (k v : JVal),
    alookup (aset m k v) k = some v := by
  intro m
  induction m with
  | nil => intro k v; simp [aset, alookup]
  | cons p rest ih =>
    intro k v
    obtain ⟨k0, v0⟩ := p
    by_cases h : k0 = k
    · simp [aset, alookup, h]
    · simp [aset, alookup, h, ih]

theorem alookup_aset_ne : ∀ (m : List (JVal × JVal)) (k k2 v : JVal), k2 ≠ k →
    alookup (aset m k v) k2 = alookup m k2 := by
  intro m
  induction m with
  | nil =>
    intro k k2 v h
    have hne : ¬k = k2 := fun hh => h hh.symm
    simp [aset, alookup, hne]
  | cons p rest ih =>
    intro k k2 v h
    obtain ⟨k0, v0⟩ := p
    by_cases h0 : k0 = k
    · subst h0
      have hne : ¬k0 = k2 := fun hh => h hh.symm
      simp [aset, alookup, hne]
    · simp [aset, alookup, h0, ih _ _ _ h]

/-- The last entry of `es` (in read order) whose id field equals `k`. -/
def lastWith (k : JVal) (es : List JVal) : Option JVal :=
  es.reverse.find? (fun e => getJ e "id" == k)

theorem lastWith_cons (k e : JVal) (es : List JVal) :
    lastWith k (e :: es) =
      (lastWith k es).or (if getJ e "id" == k then some e else none) := by
  unfold lastWith
  rw [List.reverse_cons, List.find?_append]
  congr 1
  cases h : (getJ e "id" == k) <;> simp [List.find?_cons, h]

theorem alookup_addEntries (tp : String) :
    ∀ (es : List JVal) (m : List (JVal × JVal)) (k : JVal),
      alookup (addEntries tp m es) k =
        if k.truthy = true then
          (match lastWith k es with
           | some e => some (qEntry tp e)
           | none => alookup m k)
        else alookup m k := by
  intro es
  induction es with
  | nil =>
    intro m k
    cases h : k.truthy <;> simp [addEntries, lastWith, h]
  | cons e es ih =>
    intro m k
    rw [addEntries, ih, lastWith_cons]
    by_cases hk : k.truthy = true
    · simp only [hk, if_true]
      cases hl : lastWith k es with
      | some x => simp [Option.or]
      | none =>
        simp only [Option.or]
        cases hp : (getJ e "id" == k) with
        | true =>
          have hk2 : getJ e "id" = k := by simpa using hp
          have : (getJ e "id").truthy = true := by rw [hk2]; exact hk
          simp [this, hk2, hk, alookup_aset_self]
        | false =>
          have hne : getJ e "id" ≠ k := by simpa using hp
          cases ht : (getJ e "id").truthy with
          | true => simp [ht, alookup_aset_ne _ _ _ _ (fun h => hne h.symm)]
          | false => simp [ht]
    · simp only [hk, if_false]
      cases ht : (getJ e "id").truthy with
      | true =>
        have hne : k ≠ getJ e "id" := by
          intro h
          rw [h] at hk
          exact hk ht
        simp [ht, alookup_aset_ne _ _ _ _ hne]
      | false => simp [ht]

/-- C7: the catalog map is fully characterised by last-write-wins in read
order (questions array first, then vocab array): a truthy identifier that
occurs in the vocab array maps to the record of its last vocab entry (type
"vocab"), so it beats any questions entry with the same identifier;
otherwise the last questions entry wins; entries whose identifier is absent
or falsy are never written, and a non-truthy key is never present. -/
theorem C7_catalog_last_write_wins (data k : JVal) :
    alookup (load_questions_map (some data)) k =
      if k.truthy = true then
        (match lastWith k (docVocab data) with
         | some v => some (qEntry "vocab" v)
         | none =>
           match lastWith k (docQuestions data) with
           | some q => some (qEntry "reorder" q)
           | none => none)
      else none := by
  rw [load_questions_map, alookup_addEntries, alookup_addEntries]
  by_cases hk : k.truthy = true
  · simp only [hk, if_true]
    cases lastWith k (docVocab data) with
    | some v => rfl
    | none =>
      cases lastWith k (docQuestions data) with
      | some q => rfl
      | none => simp [alookup]
  · simp [hk, alookup]

/-! Theorems for claims C1 and C2, about `GET /api/admin/users`. -/

/-- A session whose answer list is absent but whose declared total is 5.
The code's own comment (app.py line 108) says the `answered` count should
fall back to `total` in this case, but `r.get("answered") or []` replaces the
absent list by `[]`, which *is* a list, so `len([]) = 0` is added instead. -/
def sessionC1 : JVal := JVal.mkObj [("user", JVal.str "u1"), ("total", JVal.num 5)]

/-- C1: evaluating the per-user summary on a log holding one session with no
answer list and declared total 5 adds 0 — not the declared total — to the
user's answered count, contradicting the claim (and app.py's own comment). -/
theorem C1_absent_answer_list_adds_zero :
    admin_users [sessionC1] =
      [{ user := JVal.str "u1", sessions := 1, lastAt := JVal.str "",
         answered := 0, correct := 0 }] := by decide

def bumpFold (d : URec) (rs : List JVal) : URec := rs.foldl (fun d r => bumpUser r d) d

theorem bumpFold_cons (d : URec) (r : JVal) (rs : List JVal) :
    bumpFold d (r :: rs) = bumpFold (bumpUser r d) rs := rfl

theorem bumpFold_correct : ∀ (rs : List JVal) (d : URec),
    (bumpFold d rs).correct = d.correct + (rs.map corContrib).sum := by
  intro rs
  induction rs with
  | nil => intro d; simp [bumpFold]
  | cons r rs ih =>
    intro d
    rw [bumpFold_cons, ih]
    show d.correct + corContrib r + (rs.map corContrib).sum =
      d.correct + (corContrib r + (rs.map corContrib).sum)
    omega

theorem find?_foldUsers : ∀ (res : List JVal) (m : List URec) (u : JVal),
    List.find? (fun d => d.user == u) (res.foldl stepUser m) =
      match List.find? (fun d => d.user == u) m, res.filter (fun r => userKey r == u) with
      | some d, rs => some (bumpFold d rs)
      | none, [] => none
      | none, rs => some (bumpFold (initUser u) rs) := by
  intro res
  induction res with
  | nil =>
    intro m u
    simp only [List.foldl_nil, List.filter_nil]
    cases List.find? (fun d => d.user == u) m with
    | some d => simp [bumpFold]
    | none => rfl
  | cons r res ih =>
    intro m u
    rw [List.foldl_cons, ih, List.filter_cons]
    by_cases hu : userKey r = u
    · subst hu
      rw [stepUser, find?_upsert_self (fun d => d.user == userKey r) (bumpUser r)
        (initUser (userKey r)) (beq_self_eq_true _) (fun x => rfl) m]
      simp only [beq_self_eq_true, if_true]
      cases hm : List.find? (fun d => d.user == userKey r) m with
      | some d => simp [bumpFold_cons]
      | none => simp [bumpFold_cons]
    · have hg : (userKey r == u) = false := beq_eq_false_iff_ne.mpr hu
      rw [stepUser, find?_upsert_ne (fun d => d.user == u) (fun d => d.user == userKey r)
        (bumpUser r) (initUser (userKey r))
        (fun x hx => beq_eq_false_iff_ne.mpr (fun hh => hu ((beq_iff_eq.mp hx).symm.trans hh)))
        (fun x => rfl) (beq_eq_false_iff_ne.mpr hu) m]
      simp only [hg, Bool.false_eq_true, if_false]

theorem upsert_pairwise_users (r : JVal) :
    ∀ m : List URec, m.Pairwise (fun a b => a.user ≠ b.user) →
      (upsert (fun d => d.user == userKey r) (bumpUser r) (initUser (userKey r)) m).Pairwise
        (fun a b => a.user ≠ b.user) := by
  intro m
  induction m with
  | nil => intro _; simp [upsert]
  | cons x xs ih =>
    intro h
    rcases List.pairwise_cons.mp h with ⟨hx, hxs⟩
    cases hp : (x.user == userKey r) with
    | true =>
      simp only [upsert, hp, if_true]
      refine List.pairwise_cons.mpr ⟨?_, hxs⟩
      intro y hy
      show (bumpUser r x).user ≠ y.user
      exact hx y hy
    | false =>
      simp only [upsert, hp, Bool.false_eq_true, if_false]
      refine List.pairwise_cons.mpr ⟨?_, ih hxs⟩
      intro y hy
      rcases mem_upsert _ _ _ xs y hy with ⟨z, hz, hyz⟩ | hyi
      · have hz2 : y.user = z.user := by rcases hyz with rfl | rfl <;> rfl
        rw [hz2]
        exact hx z hz
      · have hz2 : y.user = userKey r := by rw [hyi]; rfl
        rw [hz2]
        exact beq_eq_false_iff_ne.mp hp

theorem usersTable_pairwise : ∀ (res : List JVal) (m : List URec),
    m.Pairwise (fun a b => a.user ≠ b.user) →
    (res.foldl stepUser m).Pairwise (fun a b => a.user ≠ b.user) := by
  intro res
  induction res with
  | nil => intro m h; exact h
  | cons r res ih => intro m h; exact ih _ (upsert_pairwise_users r m h)

theorem find?_eq_of_mem_pairwise : ∀ (l : List URec) (rec : URec),
    l.Pairwise (fun a b => a.user ≠ b.user) → rec ∈ l →
    List.find? (fun d => d.user == rec.user) l = some rec := by
  intro l
  induction l with
  | nil => intro rec _ h; simp at h
  | cons x xs ih =>
    intro rec hpw hmem
    rcases List.pairwise_cons.mp hpw with ⟨hx, hxs⟩
    rcases List.mem_cons.mp hmem with rfl | hmem
    · simp [List.find?_cons, beq_self_eq_true]
    · have hne : (x.user == rec.user) = false := beq_eq_false_iff_ne.mpr (hx rec hmem)
      simp [List.find?_cons, hne, ih rec hxs hmem]

theorem corContrib_explicit (r : JVal) :
    corContrib r = if (getJ r "correct").truthy = true
      then jnum (getJ r "correct") else (flagCount (ansOf r) : Int) := by
  rw [corContrib, jor]
  by_cases h : (getJ r "correct").truthy = true
  · simp [h]
  · simp [h, jnum]

/-- A session with declared correct count 0 and an answer list containing one
correct answer: `r.get("correct") or sum(...)` treats the declared 0 as
falsy and counts the flags instead. -/
def sessionC2 : JVal :=
  JVal.mkObj [("user", JVal.str "u2"), ("correct", JVal.num 0),
    ("answered", JVal.mkArr [JVal.mkObj [("correct", JVal.bool true)]])]

/-- C2 counterexample: with a declared correct count of 0 present, the
per-user summary reports 1 (the flag count), not the declared 0 the claim
requires. -/
theorem C2_counterexample_declared_zero_ignored :
    (admin_users [sessionC2]).map URec.correct = [1] ∧
    (admin_users [sessionC2]).map URec.correct ≠ [0] := by
  constructor
  · decide
  · decide

/-- C2 (amended): every row of `GET /api/admin/users` has as its correct
count the sum, over the sessions of that user, of the declared correct count
when it is truthy (present and nonzero), else the number of answers whose
correctness flag is truthy. -/
theorem C2_amended_correct_prefers_truthy (res : List JVal) :
    ∀ rec ∈ admin_users res,
      rec.correct = ((res.filter (fun r => userKey r == rec.user)).map
        (fun r => if (getJ r "correct").truthy = true
          then jnum (getJ r "correct") else (flagCount (ansOf r) : Int))).sum := by
  intro rec hmem
  rw [admin_users] at hmem
  have hmem' : rec ∈ usersTable res :=
    (List.perm_insertionSort (descBy lastKey) (usersTable res)).mem_iff.mp hmem
  have hpw := usersTable_pairwise res [] List.Pairwise.nil
  have hf := find?_eq_of_mem_pairwise _ rec hpw hmem'
  rw [find?_foldUsers res [] rec.user, List.find?_nil] at hf
  cases hrs : res.filter (fun r => userKey r == rec.user) with
  | nil =>
    rw [hrs] at hf
    exact absurd hf (by simp)
  | cons a as =>
    rw [hrs] at hf
    have heq : bumpFold (initUser rec.user) (a :: as) = rec := Option.some.inj hf
    have hcor := bumpFold_correct (a :: as) (initUser rec.user)
    rw [heq] at hcor
    rw [hcor]
    have hfun : (fun r => if (getJ r "correct").truthy = true then jnum (getJ r "correct")
        else (flagCount (ansOf r) : Int)) = corContrib :=
      funext fun r => (corContrib_explicit r).symm
    rw [hfun]
    simp [initUser]

theorem C2_amended_correct_prefers_truthy_witness :
    (({ user := JVal.str "u2", sessions := 1, lastAt := JVal.str "",
        answered := 1, correct := 1 } : URec) ∈ admin_users [sessionC2]) ∧
    ({ user := JVal.str "u2", sessions := 1, lastAt := JVal.str "",
        answered := 1, correct := 1 } : URec).correct =
      (([sessionC2].filter (fun r => userKey r == JVal.str "u2")).map
        (fun r => if (getJ r "correct").truthy = true
          then jnum (getJ r "correct") else (flagCount (ansOf r) : Int))).sum :=
  ⟨by decide, C2_amended_correct_prefers_truthy [sessionC2] _ (by decide)⟩

/-! Theorems for claims C3, C4, C8, C9 and C10, about `GET /api/admin/summary`. -/

theorem summary_topMissed_eq (doc : Option JVal) (userQ unitQ qQ : Option String)
    (res : List JVal) :
    (admin_summary doc userQ unitQ qQ res).topMissed =
      topMissedArr (answeredAll (load_questions_map doc) userQ (unitQ.getD "")
        (lowerStr (qQ.getD "")) res) := rfl

/-- C3: the topMissed table is sorted by wrong count descending with ties
broken by answered count descending; in particular a group with 3 wrong out
of 5 answered always ranks strictly before a group with 3 wrong out of 4
answered. -/
theorem C3_topMissed_order (doc : Option JVal) (userQ unitQ qQ : Option String)
    (res : List JVal) :
    List.Sorted missedOrd ((admin_summary doc userQ unitQ qQ res).topMissed) ∧
    (∀ (i j : Nat) (gi gj : QRow),
      ((admin_summary doc userQ unitQ qQ res).topMissed).get? i = some gi →
      ((admin_summary doc userQ unitQ qQ res).topMissed).get? j = some gj →
      gi.wrong = 3 → gi.answered = 5 → gj.wrong = 3 → gj.answered = 4 → i < j) := by
  have hs : List.Sorted missedOrd ((admin_summary doc userQ unitQ qQ res).topMissed) := by
    rw [summary_topMissed_eq, topMissedArr]
    exact List.sorted_insertionSort missedOrd _
  refine ⟨hs, ?_⟩
  intro i j gi gj hi hj hw1 ha1 hw2 ha2
  rcases List.get?_eq_some.mp hi with ⟨hilen, hig⟩
  rcases List.get?_eq_some.mp hj with ⟨hjlen, hjg⟩
  by_contra hlt
  push_neg at hlt
  rcases Nat.lt_or_ge j i with hji | hij
  · have hrel := hs.rel_get_of_lt (a := ⟨j, hjlen⟩) (b := ⟨i, hilen⟩) hji
    rw [hig, hjg] at hrel
    unfold missedOrd at hrel
    omega
  · have hieq : i = j := le_antisymm hij hlt
    subst hieq
    rw [hig] at hjg
    rw [hjg] at ha1
    omega

def ansC3 (id : String) (c : Bool) : JVal :=
  JVal.mkObj [("id", JVal.str id), ("correct", JVal.bool c)]

def resC3 : List JVal :=
  [JVal.mkObj [("answered", JVal.mkArr
    [ansC3 "A" false, ansC3 "A" false, ansC3 "A" false, ansC3 "A" true, ansC3 "A" true,
     ansC3 "B" false, ansC3 "B" false, ansC3 "B" false, ansC3 "B" true])]]

def gA3 : QRow :=
  { id := JVal.str "A", unit := JVal.str "", jp := JVal.null, en := JVal.null,
    answered := 5, wrong := 3, lastAt := JVal.str "" }

def gB3 : QRow :=
  { id := JVal.str "B", unit := JVal.str "", jp := JVal.null, en := JVal.null,
    answered := 4, wrong := 3, lastAt := JVal.str "" }

theorem C3_topMissed_order_witness :
    ((admin_summary none none none none resC3).topMissed.get? 0 = some gA3 ∧
     (admin_summary none none none none resC3).topMissed.get? 1 = some gB3 ∧
     gA3.wrong = 3 ∧ gA3.answered = 5 ∧ gB3.wrong = 3 ∧ gB3.answered = 4) ∧
    (0 : Nat) < 1 :=
  ⟨by decide,
   (C3_topMissed_order none none none none resC3).2 0 1 gA3 gB3
     (by decide) (by decide) rfl rfl rfl rfl⟩

/-- C4: both `recentAnswers` and `sessions` hold at most 100 entries, and
each equals the first 100 entries of a descending-sorted permutation of,
respectively, the flattened filtered answer list (key: per-answer timestamp,
absent comparing as "") and the matching session rows (key: end timestamp,
absent comparing as "") — i.e. the entries with the lexicographically
greatest timestamps, sorted descending. -/
theorem C4_truncation_and_recency (doc : Option JVal) (userQ unitQ qQ : Option String)
    (res : List JVal) :
    (admin_summary doc userQ unitQ qQ res).recentAnswers.length ≤ 100 ∧
    (admin_summary doc userQ unitQ qQ res).sessions.length ≤ 100 ∧
    (∃ L : List AItem,
      L.Perm (answeredAll (load_questions_map doc) userQ (unitQ.getD "")
        (lowerStr (qQ.getD "")) res) ∧
      List.Sorted (descBy atKey) L ∧
      (admin_summary doc userQ unitQ qQ res).recentAnswers = L.take 100) ∧
    (∃ M : List SessRow,
      M.Perm (sessRows userQ res) ∧
      List.Sorted (descBy endKey) M ∧
      (admin_summary doc userQ unitQ qQ res).sessions = M.take 100) := by
  refine ⟨List.length_take_le _ _, List.length_take_le _ _,
    ⟨List.insertionSort (descBy atKey) (answeredAll (load_questions_map doc) userQ
        (unitQ.getD "") (lowerStr (qQ.getD "")) res),
      List.perm_insertionSort _ _, List.sorted_insertionSort _ _, rfl⟩,
    ⟨List.insertionSort (descBy endKey) (sessRows userQ res),
      List.perm_insertionSort _ _, List.sorted_insertionSort _ _, rfl⟩⟩

/-- The flattened-answer pipeline with the unit guard removed: this is what
"no unit filtering" means, to be compared with `answeredAll` at the empty
unit parameter. -/
def answeredAllNoUnit (qmap : List (JVal × JVal)) (user : Option String)
    (qtext : String) (res : List JVal) : List AItem :=
  (res.filter (matchUser user)).flatMap
    (fun r => ((answersOf r).map (mkItem qmap r)).filter
      (fun it => qtext == "" || hasSub qtext.data (hayOf it).data))

/-- C8: with a non-empty unit parameter every flattened answer that survives
the filter has resolved unit exactly equal to the parameter (hence answers
with an empty resolved unit are excluded); with the empty unit parameter the
pipeline is identical to the one with no unit guard at all. -/
theorem C8_unit_filter (qmap : List (JVal × JVal)) (user : Option String)
    (qtext : String) (res : List JVal) (u : String) :
    (u ≠ "" → ∀ it ∈ answeredAll qmap user u qtext res, it.unit = JVal.str u) ∧
    answeredAll qmap user "" qtext res = answeredAllNoUnit qmap user qtext res := by
  constructor
  · intro hu it hit
    rw [answeredAll] at hit
    rcases List.mem_flatMap.mp hit with ⟨r, _, hit2⟩
    have hk := (List.mem_filter.mp hit2).2
    rw [keepItem] at hk
    simp only [Bool.and_eq_true, Bool.or_eq_true, beq_iff_eq] at hk
    rcases hk.1 with h1 | h1
    · exact absurd h1 hu
    · exact h1
  · rw [answeredAll, answeredAllNoUnit]
    have hfn : ∀ r : JVal,
        ((answersOf r).map (mkItem qmap r)).filter (keepItem "" qtext) =
        ((answersOf r).map (mkItem qmap r)).filter
          (fun it => qtext == "" || hasSub qtext.data (hayOf it).data) := by
      intro r
      apply List.filter_congr
      intro it _
      rw [keepItem]
      simp
    exact congrArg _ (funext hfn)

def resC8 : List JVal :=
  [JVal.mkObj [("answered", JVal.mkArr
    [JVal.mkObj [("id", JVal.str "q"), ("unit", JVal.str "animals")]])]]

def itemC8 : AItem :=
  { user := JVal.str "guest", id := JVal.str "q", unit := JVal.str "animals",
    jp := JVal.null, en := JVal.null, type := JVal.str "", correct := false,
    userAnswer := JVal.null, atVal := JVal.null }

theorem C8_unit_filter_witness :
    ("animals" ≠ "" ∧ itemC8 ∈ answeredAll [] none "animals" "" resC8) ∧
    itemC8.unit = JVal.str "animals" :=
  ⟨⟨by decide, by decide⟩,
   (C8_unit_filter [] none "" resC8 "animals").1 (by decide) itemC8 (by decide)⟩

/-- C9: an absent or empty user parameter makes every session match, so the
whole summary coincides with the one for the wildcard `__all__`. -/
theorem C9_absent_or_empty_user_is_all (doc : Option JVal) (unitQ qQ : Option String)
    (res : List JVal) :
    admin_summary doc none unitQ qQ res = admin_summary doc (some "__all__") unitQ qQ res ∧
    admin_summary doc (some "") unitQ qQ res = admin_summary doc (some "__all__") unitQ qQ res := by
  have key : ∀ u1 u2 : Option String, matchUser u1 = matchUser u2 →
      admin_summary doc u1 unitQ qQ res = admin_summary doc u2 unitQ qQ res := by
    intro u1 u2 h
    unfold admin_summary answeredAll sessRows
    rw [h]
  constructor
  · exact key _ _ (funext fun r => by simp [matchUser])
  · exact key _ _ (funext fun r => by simp [matchUser])

def ansC10 : JVal := JVal.mkObj [("id", JVal.str "q1"), ("at", JVal.str "")]

def sessC10 : JVal :=
  JVal.mkObj [("endedAt", JVal.str "2024-05-01T10:00:00Z"),
    ("answered", JVal.mkArr [ansC10])]

/-- C10 counterexample: an answer whose `at` field is present but empty gets
the session's `endedAt` as its timestamp — the code tests truthiness, not
presence, so the claim's "own at field when present" fails at this input. -/
theorem C10_counterexample_present_empty_at :
    ansC10.get? "at" = some (JVal.str "") ∧
    (answeredAll [] none "" "" [sessC10]).map AItem.atVal =
      [JVal.str "2024-05-01T10:00:00Z"] ∧
    JVal.str "2024-05-01T10:00:00Z" ≠ JVal.str "" :=
  ⟨by decide, by decide, by decide⟩

/-- C10 (amended): every flattened answer's timestamp is resolved from its
source session and answer by the truthiness chain — the answer's own `at`
when truthy (present and non-empty), else the session's `endedAt` when
truthy, else the session's `receivedAt`; an answer without a timestamp of
its own therefore carries its session's time. -/
theorem C10_amended_at_truthiness_chain (qmap : List (JVal × JVal))
    (user : Option String) (unitQ qtext : String) (res : List JVal) :
    ∀ it ∈ answeredAll qmap user unitQ qtext res, ∃ r ∈ res, ∃ a ∈ answersOf r,
      it.atVal = (if (getJ a "at").truthy = true then getJ a "at"
        else if (getJ r "endedAt").truthy = true then getJ r "endedAt"
        else getJ r "receivedAt") := by
  intro it hit
  rw [answeredAll] at hit
  rcases List.mem_flatMap.mp hit with ⟨r, hr, hit2⟩
  have hrres : r ∈ res := (List.mem_filter.mp hr).1
  have hit3 := (List.mem_filter.mp hit2).1
  rcases List.mem_map.mp hit3 with ⟨a, ha, rfl⟩
  refine ⟨r, hrres, a, ha, ?_⟩
  show jor (getJ a "at") (jor (getJ r "endedAt") (getJ r "receivedAt")) = _
  rw [jor, jor]

def itemC10 : AItem :=
  { user := JVal.str "guest", id := JVal.str "q1", unit := JVal.str "",
    jp := JVal.null, en := JVal.null, type := JVal.str "", correct := false,
    userAnswer := JVal.null, atVal := JVal.str "2024-05-01T10:00:00Z" }

theorem C10_amended_at_truthiness_chain_witness :
    (itemC10 ∈ answeredAll [] none "" "" [sessC10]) ∧
    (∃ r ∈ [sessC10], ∃ a ∈ answersOf r,
      itemC10.atVal = (if (getJ a "at").truthy = true then getJ a "at"
        else if (getJ r "endedAt").truthy = true then getJ r "endedAt"
        else getJ r "receivedAt")) :=
  ⟨by decide, C10_amended_at_truthiness_chain [] none "" "" [sessC10] itemC10 (by decide)⟩
